import Mathlib

/-!
Shallow embedding of src/JsonParser.h (namespace Json): the tagged value
tree, the recursive descent parser and the serializer, together with
proofs about the claims of the specification.

Conventions of the embedding:
- A char pointer cursor into a NUL terminated buffer is a List Char
  holding the remaining characters; the character at the end of the list
  is the terminator. Reading the terminator yields the NUL character,
  and stepping past it is undefined behavior in C; every place where the
  source can do that is marked by a comment on the definition.
- A Value pointer is a Value; the constructor Value.null models the NULL
  pointer (parse failure or absent child), never a JSON null literal,
  which the grammar does not have.
- The double payload of a Number is modelled as a rational: every token
  this scanner feeds to atof is a finite decimal string.
- Each fprintf to stderr is modelled as a Diag tag; parser functions
  return the list of tags they emit, in emission order.
- The recursion of the mutually recursive parser functions is bounded by
  a fuel argument. Every recursive call happens strictly after at least
  one character of input has been consumed, so a fuel exceeding the
  input length can never run out; the fuel zero branches return the
  cursor unchanged and are unreachable from the entry point read.
-/

namespace Json

/-- Closed kind tag, mirroring the C enum with values T_NUMBER, T_STRING,
T_BOOLEAN, T_ARRAY, T_OBJECT. The C name Type collides with a Lean
keyword, hence the name Kind. -/
inductive Kind where
  | T_NUMBER
  | T_STRING
  | T_BOOLEAN
  | T_ARRAY
  | T_OBJECT
  deriving DecidableEq

/-- One Value pointer: NULL or a node of one of the five variants.
Number wraps a double (modelled as a rational), Boolean a truth value,
String the stored text, Array a std::vector of Value pointers (a NULL
element is representable, and the parser can store one), Object a
std::map from string keys to Value pointers, modelled as the sorted
association list the map maintains. -/
inductive Value where
  | null
  | num (v : ℚ)
  | bool (b : Bool)
  | str (s : List Char)
  | arr (elems : List Value)
  | obj (fields : List (List Char × Value))

instance : Nonempty Value := ⟨Value.null⟩

/-- Dispatch of the virtual call getType on a Value pointer. Calling it
through a NULL pointer dereferences NULL, which has no defined result,
hence the Option. -/
def getType : Value → Option Kind
  | Value.null => none
  | Value.num _ => some Kind.T_NUMBER
  | Value.bool _ => some Kind.T_BOOLEAN
  | Value.str _ => some Kind.T_STRING
  | Value.arr _ => some Kind.T_ARRAY
  | Value.obj _ => some Kind.T_OBJECT

/-- Comparison of std::string keys: lexicographic on character values,
the order std::map and std::set use for std::string. -/
def strLt : List Char → List Char → Bool
  | [], [] => false
  | [], _ :: _ => true
  | _ :: _, [] => false
  | a :: as, b :: bs => if a < b then true else if b < a then false else strLt as bs

/-- Assignment through std::map operator[], result[field_name] = value:
insert the key at its sorted position, or overwrite the mapped value
when the key is already present. -/
def mapInsert (k : List Char) (v : Value) :
    List (List Char × Value) → List (List Char × Value)
  | [] => [(k, v)]
  | (k2, v2) :: rest =>
    if strLt k k2 then (k, v) :: (k2, v2) :: rest
    else if strLt k2 k then (k2, v2) :: mapInsert k v rest
    else (k, v) :: rest

/-- Insertion into the std::set of keys: sorted position, duplicates
dropped. -/
def setInsert (k : List Char) : List (List Char) → List (List Char)
  | [] => [k]
  | k2 :: rest =>
    if strLt k k2 then k :: k2 :: rest
    else if strLt k2 k then k2 :: setInsert k rest
    else k2 :: rest

/-- KeySet Object::keys() const: inserts every key of the map into a
std::set and returns it. -/
def keys (fields : List (List Char × Value)) : List (List Char) :=
  fields.foldl (fun acc kv => setInsert kv.1 acc) []

/-- Value* Object::get(const std::string& key) const: the mapped pointer
when the key is found, NULL otherwise. A stored NULL child and a missing
key give the same NULL result. -/
def objectGet (fields : List (List Char × Value)) (key : List Char) : Value :=
  match fields with
  | [] => Value.null
  | (k, v) :: rest => if k = key then v else objectGet rest key

/-- Typed bool Object::get(key, out) const: e = get(key); the test
(e and e->getType() == T::TYPE) guards the virtual call with a null
check, so a missing key, a stored NULL child and a kind mismatch all
return false and leave out untouched. Result some e models returning
true with out = e; none models returning false. -/
def objectGetTyped (fields : List (List Char × Value)) (key : List Char)
    (t : Kind) : Option Value :=
  let e := objectGet fields key
  if getType e = some t then some e else none

/-- Const Value* Array::get(size_t idx) const: v[idx] with no bounds
check; an out of range index is undefined behavior, modelled by none. -/
def arrayGet (elems : List Value) (idx : Nat) : Option Value :=
  elems.get? idx

/-- Typed bool Array::get(idx, out) const: e = get(idx); e->getType() is
then called with no null check, so a NULL element is dereferenced:
undefined behavior, modelled by the outer none (as is an out of range
index). Defined behavior is some r, where r = some e models returning
true with out = e and r = none models returning false. -/
def arrayGetTyped (elems : List Value) (idx : Nat) (t : Kind) :
    Option (Option Value) :=
  match arrayGet elems idx with
  | none => none
  | some e =>
    match getType e with
    | none => none
    | some te => some (if te = t then some e else none)

/-- Character class of int isspace(int c) in the C locale. -/
def isspace (c : Char) : Bool :=
  c = ' ' ∨ c = '\t' ∨ c = '\n' ∨ c = '\x0b' ∨ c = '\x0c' ∨ c = '\r'

/-- Character class of int isdigit(int c). -/
def isdigit (c : Char) : Bool := '0' ≤ c ∧ c ≤ '9'

/-- Character class of int isalpha(int c) in the C locale. -/
def isalpha (c : Char) : Bool := ('a' ≤ c ∧ c ≤ 'z') ∨ ('A' ≤ c ∧ c ≤ 'Z')

/-- Character class of int isalnum(int c) in the C locale. -/
def isalnum (c : Char) : Bool := isalpha c ∨ isdigit c

/-- The character the cursor points at; at the end of the list it reads
the NUL terminator. -/
def peek : List Char → Char
  | [] => '\x00'
  | c :: _ => c

/-- Loop while (isspace(*s)) ++s; the terminator is not a space, so the
loop always stops in bounds. -/
def dropSpaces : List Char → List Char
  | [] => []
  | c :: cs => if isspace c then dropSpaces cs else c :: cs

/-- Function bool chompSpace(char*& s): consume a nonempty run of
whitespace, reporting whether anything was consumed. -/
def chompSpace (s : List Char) : Bool × List Char :=
  match s with
  | [] => (false, [])
  | c :: cs => if isspace c then (true, dropSpaces cs) else (false, c :: cs)

/-- Loop while (*s != '\n') ++s of chompComment: stops at the newline
without consuming it. When the input ends inside the comment the C loop
walks past the terminator (undefined behavior); the model stops at the
end of the input. -/
def dropToNewline : List Char → List Char
  | [] => []
  | c :: cs => if c = '\n' then c :: cs else dropToNewline cs

/-- Function bool chompComment(char*& s): the test *(s) == '/' &&
*(s + 1) == '/' (the second read happens only when the first slash is
there, mirrored by the short circuit of the conjunction); on two leading
slashes skip past them to the next newline. -/
def chompComment (s : List Char) : Bool × List Char :=
  if peek s = '/' ∧ peek (s.drop 1) = '/' then (true, dropToNewline (s.drop 2))
  else (false, s)

/-- Loop of void chomp(char*& s): while (chompSpace(s) || chompComment(s));
with the fuel bounding the number of rounds. Every successful round
consumes at least one character, so the fuel supplied by chomp always
reaches the fixed point; the fuel zero branch is an unreachable
artifact. -/
def chompF : Nat → List Char → List Char
  | 0, s => s
  | f + 1, s =>
    match chompSpace s with
    | (true, s2) => chompF f s2
    | (false, _) =>
      match chompComment s with
      | (true, s2) => chompF f s2
      | (false, _) => s

/-- Function void chomp(char*& s): skip whitespace and line comments
until neither applies. -/
def chomp (s : List Char) : List Char := chompF (s.length + 1) s

/-- Diagnostic messages written to stderr, one tag per fprintf site of
the source. -/
inductive Diag where
  | fieldNameExpectedQuote
  | mapExpectedLBrace
  | mapExpectedColon
  | mapExpectedCommaOrRBrace
  | mapExpectedRBrace
  | listExpectedLBrack
  | listExpectedComma
  | listExpectedRBrack
  | unrecognizedLiteral
  deriving DecidableEq

/-- Loop of parseCharString: do { if (*prev != '\\' && *s == '"') { s++;
break; } result += *s; prev = s; s++; } while (*s != 0). The first
component is the collected text, the second the rest of the input. When
the body runs with the cursor already on the terminator (the input ends
right after the opening quote) the C code appends the NUL byte to the
result and then steps past the buffer (undefined behavior); the model
appends the byte and stops at the end of the input. -/
def csLoop (prev : Char) : List Char → List Char × List Char
  | [] => (['\x00'], [])
  | c :: cs =>
    if prev ≠ '\\' ∧ c = '"' then ([], cs)
    else
      match cs with
      | [] => ([c], [])
      | _ :: _ =>
        let r := csLoop c cs
        (c :: r.1, r.2)

/-- Function std::string parseCharString(char*& s): chomp, expect an
opening quote (diagnostic and empty result otherwise), then collect
characters up to the first quote not preceded by a backslash. The
backslash itself stays in the result: both characters are retained. -/
def parseCharString (s : List Char) : List Char × List Char × List Diag :=
  let s1 := chomp s
  match s1 with
  | '"' :: rest =>
    let r := csLoop '"' rest
    (r.1, r.2, [])
  | _ => ([], s1, [Diag.fieldNameExpectedQuote])

/-- Value of a decimal digit character. -/
def digitVal (c : Char) : Nat := c.toNat - '0'.toNat

/-- Value of the longest leading run of digits, accumulated left to
right. -/
def scanDigitsVal (acc : Nat) : List Char → Nat
  | [] => acc
  | c :: cs => if isdigit c then scanDigitsVal (acc * 10 + digitVal c) cs else acc

/-- Length of the longest leading run of digits. -/
def scanDigitsCnt : List Char → Nat
  | [] => 0
  | c :: cs => if isdigit c then scanDigitsCnt cs + 1 else 0

/-- Rest of the input after the longest leading run of digits. -/
def scanDigitsRest : List Char → List Char
  | [] => []
  | c :: cs => if isdigit c then scanDigitsRest cs else c :: cs

/-- Scanner of double atof(const char*) on the tokens this parser
produces (digits, minus signs and dots): skip leading whitespace, an
optional sign, integer digits, then an optional dot and fraction digits,
stopping at the first character that fits neither; when no digit at all
is read there is no conversion and the result is zero. Returns the
signed mantissa together with the number of fraction digits. -/
def atofScan (tok : List Char) : ℤ × Nat :=
  let t1 := dropSpaces tok
  let signNeg : Bool := match t1 with | '-' :: _ => true | _ => false
  let t2 : List Char := match t1 with | '-' :: r => r | '+' :: r => r | _ => t1
  let ival := scanDigitsVal 0 t2
  let icnt := scanDigitsCnt t2
  match scanDigitsRest t2 with
  | '.' :: t4 =>
    let fval := scanDigitsVal 0 t4
    let fcnt := scanDigitsCnt t4
    if icnt + fcnt = 0 then (0, 0)
    else ((if signNeg then -((ival * 10 ^ fcnt + fval : Nat) : ℤ)
           else ((ival * 10 ^ fcnt + fval : Nat) : ℤ)), fcnt)
  | _ =>
    if icnt = 0 then (0, 0)
    else ((if signNeg then -(ival : ℤ) else (ival : ℤ)), 0)

/-- Numeric value of a scanned token: mantissa over ten to the number of
fraction digits. -/
def atofQ (p : ℤ × Nat) : ℚ := (p.1 : ℚ) / (10 : ℚ) ^ p.2

/-- Function double atof(const char* tok). -/
def atof (tok : List Char) : ℚ := atofQ (atofScan tok)

/-- Length of the numeric token of parseLiteral past its first
character: the do/while consumes one character unconditionally and then
keeps going while the next one is a digit, a minus or a dot. -/
def spanNum : List Char → Nat
  | [] => 0
  | c :: cs => if isdigit c ∨ c = '-' ∨ c = '.' then spanNum cs + 1 else 0

/-- Length of the identifier token of parseLiteral past its first
character: alphanumerics and underscores. -/
def spanAlnum : List Char → Nat
  | [] => 0
  | c :: cs => if isalnum c ∨ c = '_' then spanAlnum cs + 1 else 0

/-- Function static Value* parseLiteral(char*& s). The pointer tok_start
is saved before the chomp, so the copied token also covers the trivia
the chomp skipped; the only caller, parseGeneric, has already chomped,
which makes that span empty in every reachable call. A numeric token is
converted with atof into a Number; an identifier token must be true or
false, anything else prints the unrecognized literal diagnostic and
yields NULL, as does a token starting with any other character. -/
def parseLiteral (s : List Char) : Value × List Char × List Diag :=
  let s1 := chomp s
  let trivia := s.length - s1.length
  if isdigit (peek s1) ∨ peek s1 = '-' then
    let k := match s1 with | [] => 1 | _ :: cs => 1 + spanNum cs
    (Value.num (atof (s.take (trivia + k))), s1.drop k, [])
  else if isalpha (peek s1) then
    let k := match s1 with | [] => 1 | _ :: cs => 1 + spanAlnum cs
    let tok := s.take (trivia + k)
    if tok = "true".data then (Value.bool true, s1.drop k, [])
    else if tok = "false".data then (Value.bool false, s1.drop k, [])
    else (Value.null, s1.drop k, [Diag.unrecognizedLiteral])
  else (Value.null, s1, [Diag.unrecognizedLiteral])

/-- Function Value* parseString(char*& s): always builds a String node
from the result of parseCharString, even from the empty result of a
failed one. -/
def parseString (s : List Char) : Value × List Char × List Diag :=
  let r := parseCharString s
  (Value.str r.1, r.2.1, r.2.2)

mutual

/-- Function Value* parseGeneric(char*& s): chomp, then dispatch on the
next character: brace to parseMap, bracket to parseList, quote to
parseString, anything else to parseLiteral. -/
def parseGeneric : Nat → List Char → Value × List Char × List Diag
  | 0, s => (Value.null, s, [])
  | f + 1, s =>
    let s1 := chomp s
    match s1 with
    | '{' :: _ => parseMap f s1
    | '[' :: _ => parseList f s1
    | '"' :: _ => parseString s1
    | _ => parseLiteral s1

/-- Function Value* parseMap(char*& s): chomp, expect the opening brace
(diagnostic and NULL otherwise), consume it and run the pair loop. -/
def parseMap : Nat → List Char → Value × List Char × List Diag
  | 0, s => (Value.null, s, [])
  | f + 1, s =>
    let s1 := chomp s
    match s1 with
    | '{' :: rest => parseMapLoop f [] rest
    | _ => (Value.null, s1, [Diag.mapExpectedLBrace])

/-- Loop while(1) of parseMap. Each round: chomp; a closing brace breaks
out of the loop, after which the code chomps again (the cursor is still
on that brace, so nothing moves), checks for the brace (the check cannot
fail on this path) and consumes it, returning the Object. Otherwise read
a field name with parseCharString (its failure is not checked), expect a
colon (diagnostic and NULL otherwise), parse the value with parseGeneric
(its NULL result is not checked either and is stored as the field), then
a comma continues the loop past it, a brace continues the loop without
consuming so that the next round breaks, and anything else is a
diagnostic and NULL. -/
def parseMapLoop : Nat → List (List Char × Value) → List Char →
    Value × List Char × List Diag
  | 0, _, s => (Value.null, s, [])
  | f + 1, acc, s =>
    let s1 := chomp s
    match s1 with
    | '}' :: rest => (Value.obj acc, rest, [])
    | _ =>
      let pf := parseCharString s1
      match chomp pf.2.1 with
      | ':' :: s3 =>
        let pv := parseGeneric f s3
        let acc2 := mapInsert pf.1 pv.1 acc
        let s4 := chomp pv.2.1
        match s4 with
        | ',' :: s5 =>
          let r := parseMapLoop f acc2 s5
          (r.1, r.2.1, pf.2.2 ++ pv.2.2 ++ r.2.2)
        | '}' :: _ =>
          let r := parseMapLoop f acc2 s4
          (r.1, r.2.1, pf.2.2 ++ pv.2.2 ++ r.2.2)
        | _ => (Value.null, s4, pf.2.2 ++ pv.2.2 ++ [Diag.mapExpectedCommaOrRBrace])
      | s2 => (Value.null, s2, pf.2.2 ++ [Diag.mapExpectedColon])

/-- Function Value* parseList(char*& s): chomp, expect the opening
bracket (diagnostic and NULL otherwise), consume it and run the element
loop. -/
def parseList : Nat → List Char → Value × List Char × List Diag
  | 0, s => (Value.null, s, [])
  | f + 1, s =>
    let s1 := chomp s
    match s1 with
    | '[' :: rest => parseListLoop f [] rest
    | _ => (Value.null, s1, [Diag.listExpectedLBrack])

/-- Loop while(1) of parseList, the exact analogue of the parseMap loop:
a closing bracket breaks (and is then checked and consumed after the
loop), otherwise the element is parsed with parseGeneric and pushed back
unchecked (a NULL element is stored), then a comma continues past it, a
bracket continues without consuming, and anything else is a diagnostic
and NULL. -/
def parseListLoop : Nat → List Value → List Char →
    Value × List Char × List Diag
  | 0, _, s => (Value.null, s, [])
  | f + 1, acc, s =>
    let s1 := chomp s
    match s1 with
    | ']' :: rest => (Value.arr acc, rest, [])
    | _ =>
      let pv := parseGeneric f s1
      let acc2 := acc ++ [pv.1]
      let s2 := chomp pv.2.1
      match s2 with
      | ',' :: s3 =>
        let r := parseListLoop f acc2 s3
        (r.1, r.2.1, pv.2.2 ++ r.2.2)
      | ']' :: _ =>
        let r := parseListLoop f acc2 s2
        (r.1, r.2.1, pv.2.2 ++ r.2.2)
      | _ => (Value.null, s2, pv.2.2 ++ [Diag.listExpectedComma])

end

/-- Entry point Value* Json::read(const char* s): run parseGeneric on a
cursor at the start of the buffer. The fuel exceeds the recursion depth
any input can drive the descent to, since every recursive call is
separated from the previous one by the consumption of at least one
character. -/
def read (s : List Char) : Value := (parseGeneric (s.length + 1) s).1

/-- Stderr output produced while reading s. -/
def readErr (s : List Char) : List Diag := (parseGeneric (s.length + 1) s).2.2

/-- Decimal digit character of a value below ten. -/
def digitChar (d : Nat) : Char := Char.ofNat (48 + d)

/-- Decimal digits of n, most significant first, with a fuel bounding
the recursion; natDigits supplies enough fuel for every n. -/
def natDigitsAux : Nat → Nat → List Char
  | 0, _ => []
  | f + 1, n => if n < 10 then [digitChar n] else natDigitsAux f (n / 10) ++ [digitChar (n % 10)]

/-- Decimal digits of n, most significant first. -/
def natDigits (n : Nat) : List Char := natDigitsAux (n + 1) n

/-- Largest k with d times ten to the k at most n, for n at least d at
least one, found by repeated scaling; the fuel n is always enough. -/
def expUp : Nat → Nat → Nat → Nat
  | 0, _, _ => 0
  | f + 1, n, d => if d * 10 ≤ n then expUp f n (d * 10) + 1 else 0

/-- Smallest k at least one with n times ten to the k at least d, for
one at most n below d; the fuel d is always enough. -/
def expDown : Nat → Nat → Nat → Nat
  | 0, _, _ => 1
  | f + 1, n, d => if d ≤ n * 10 then 1 else expDown f (n * 10) d + 1

/-- Rounding of n over d to the nearest integer, halves up. -/
def roundDiv (n d : Nat) : Nat := (2 * n + d) / (2 * d)

/-- Removal of trailing zero digits. -/
def stripZeros (l : List Char) : List Char :=
  (l.reverse.dropWhile (fun c => c = '0')).reverse

/-- Statement out << num->value() of formatNumber(const Number*, out):
the stream default (defaultfloat at precision six) is the printf %g
format: round the value to six significant digits, drop trailing zeros
of the fraction, and use the scientific form when the decimal exponent
is below minus four or at least six, with a sign and at least two digits
in the printed exponent. Modelled on the rational carried by Value.num;
on every value that is exactly representable as a double the text
agrees with the C++ stream output. -/
def formatNumber (q : ℚ) : List Char :=
  if q = 0 then ['0']
  else
    let n := q.num.natAbs
    let d := q.den
    let e : ℤ := if d ≤ n then (expUp n n d : ℤ) else -(expDown d n d : ℤ)
    let m0 : Nat :=
      if e ≤ 5 then roundDiv (n * 10 ^ (5 - e).toNat) d
      else roundDiv n (d * 10 ^ (e - 5).toNat)
    let e2 : ℤ := if m0 = 10 ^ 6 then e + 1 else e
    let m : Nat := if m0 = 10 ^ 6 then 10 ^ 5 else m0
    let digs := natDigits m
    let sign : List Char := if q < 0 then ['-'] else []
    if -4 ≤ e2 ∧ e2 < 6 then
      if 0 ≤ e2 then
        let ip := digs.take (e2.toNat + 1)
        let fp := stripZeros (digs.drop (e2.toNat + 1))
        sign ++ ip ++ (if fp = [] then [] else '.' :: fp)
      else
        sign ++ '0' :: '.' :: (List.replicate (-e2 - 1).toNat '0' ++ stripZeros digs)
    else
      let fp := stripZeros (digs.drop 1)
      let mant := digs.take 1 ++ (if fp = [] then [] else '.' :: fp)
      let esign : List Char := if e2 < 0 then ['-'] else ['+']
      let eabs := natDigits e2.natAbs
      sign ++ mant ++ 'e' :: esign ++ (if eabs.length < 2 then '0' :: eabs else eabs)

/-- Function std::string escape(std::string const& s): prefix one
backslash to every backslash and every double quote; nothing else is
escaped. -/
def escape : List Char → List Char
  | [] => []
  | c :: cs => (if c = '\\' ∨ c = '"' then ['\\', c] else [c]) ++ escape cs

/-- Function void formatString(const std::string&, out): the escaped
text wrapped in double quotes. -/
def formatStringChars (str : List Char) : List Char :=
  '"' :: (escape str ++ ['"'])

/-- Statement out << bo->value() ? "true" : "false"; of
formatBoolean(const Boolean*, out). The stream insertion binds tighter
than the conditional operator, so the statement inserts the raw bool
into the stream, which prints 1 or 0 under the default flags, and the
two string literals are evaluated and discarded. -/
def formatBoolean (b : Bool) : List Char := if b then ['1'] else ['0']

mutual

/-- Function void formatGeneric(const Value*, out): a NULL pointer
prints the literal null, otherwise dispatch on getType to the formatter
of the variant. -/
def formatGeneric : Value → List Char
  | Value.null => "null".data
  | Value.num q => formatNumber q
  | Value.bool b => formatBoolean b
  | Value.str s => formatStringChars s
  | Value.arr es => '[' :: (formatElems true es ++ [']'])
  | Value.obj fs => '{' :: (formatFields true fs ++ ['}'])

/-- Loop of formatArray(const Array*, out): a comma and a space before
every entry but the first, entries rendered by formatGeneric. -/
def formatElems : Bool → List Value → List Char
  | _, [] => []
  | first, v :: rest =>
    (if first then [] else ", ".data) ++ formatGeneric v ++ formatElems false rest

/-- Loop of formatObject(const Object*, out): the source iterates the
std::set returned by keys() and fetches each entry with get(key); on the
sorted and duplicate free std::map these walk exactly the stored pairs
in storage order (theorem keys_of_sorted below proves the key walk part
for every map the code can build), so the model iterates the stored
pairs directly. Each round prints a comma and a space before every pair
but the first, then the quoted escaped key, space colon space, and the
value through formatGeneric. -/
def formatFields : Bool → List (List Char × Value) → List Char
  | _, [] => []
  | first, (k, v) :: rest =>
    (if first then [] else ", ".data) ++ formatStringChars k ++ " : ".data ++
      formatGeneric v ++ formatFields false rest

end

/-- Entry point std::string Json::write(const Value* value): format the
tree into a string. -/
def write (v : Value) : List Char := formatGeneric v

end Json

namespace Json

theorem strLt_asymm : ∀ {a b : List Char}, strLt a b = true → strLt b a = false := by
  intro a
  induction a with
  | nil =>
    intro b h
    cases b with
    | nil => simp [strLt] at h
    | cons y ys => simp [strLt]
  | cons x xs ih =>
    intro b h
    cases b with
    | nil => simp [strLt] at h
    | cons y ys =>
      simp only [strLt] at h ⊢
      rcases lt_trichotomy x y with hxy | hxy | hxy
      · rw [if_neg (lt_asymm hxy), if_pos hxy]
      · subst hxy
        rw [if_neg (lt_irrefl x), if_neg (lt_irrefl x)] at h ⊢
        exact ih h
      · rw [if_neg (lt_asymm hxy), if_pos hxy] at h
        simp at h

theorem strLt_eq : ∀ {a b : List Char}, strLt a b = false → strLt b a = false → a = b := by
  intro a
  induction a with
  | nil =>
    intro b h1 _
    cases b with
    | nil => rfl
    | cons y ys => simp [strLt] at h1
  | cons x xs ih =>
    intro b h1 h2
    cases b with
    | nil => simp [strLt] at h2
    | cons y ys =>
      simp only [strLt] at h1 h2
      rcases lt_trichotomy x y with hxy | hxy | hxy
      · rw [if_pos hxy] at h1
        simp at h1
      · subst hxy
        rw [if_neg (lt_irrefl x), if_neg (lt_irrefl x)] at h1 h2
        rw [ih h1 h2]
      · rw [if_pos hxy] at h2
        simp at h2

theorem strLt_trans : ∀ {a b c : List Char}, strLt a b = true → strLt b c = true →
    strLt a c = true := by
  intro a
  induction a with
  | nil =>
    intro b c h1 h2
    cases c with
    | nil =>
      cases b with
      | nil => simp [strLt] at h1
      | cons y ys => simp [strLt] at h2
    | cons z zs => simp [strLt]
  | cons x xs ih =>
    intro b c h1 h2
    cases b with
    | nil => simp [strLt] at h1
    | cons y ys =>
      cases c with
      | nil => simp [strLt] at h2
      | cons z zs =>
        simp only [strLt] at h1 h2 ⊢
        rcases lt_trichotomy x y with hxy | hxy | hxy
        · rcases lt_trichotomy y z with hyz | hyz | hyz
          · rw [if_pos (lt_trans hxy hyz)]
          · subst hyz
            rw [if_pos hxy]
          · rw [if_neg (lt_asymm hyz), if_pos hyz] at h2
            simp at h2
        · subst hxy
          rw [if_neg (lt_irrefl x), if_neg (lt_irrefl x)] at h1
          rcases lt_trichotomy x z with hxz | hxz | hxz
          · rw [if_pos hxz]
          · subst hxz
            rw [if_neg (lt_irrefl x), if_neg (lt_irrefl x)] at h2 ⊢
            exact ih h1 h2
          · rw [if_neg (lt_asymm hxz), if_pos hxz] at h2
            simp at h2
        · rw [if_neg (lt_asymm hxy), if_pos hxy] at h1
          simp at h1

theorem mem_setInsert {x k : List Char} :
    ∀ {l : List (List Char)}, x ∈ setInsert k l → x = k ∨ x ∈ l := by
  intro l
  induction l with
  | nil =>
    intro h
    simp [setInsert] at h
    exact Or.inl h
  | cons k2 rest ih =>
    intro h
    simp only [setInsert] at h
    split_ifs at h with h1 h2
    · rcases List.mem_cons.mp h with rfl | h3
      · exact Or.inl rfl
      · exact Or.inr h3
    · rcases List.mem_cons.mp h with rfl | h3
      · exact Or.inr (List.mem_cons_self _ _)
      · rcases ih h3 with rfl | h4
        · exact Or.inl rfl
        · exact Or.inr (List.mem_cons_of_mem _ h4)
    · exact Or.inr h

theorem pairwise_setInsert {k : List Char} :
    ∀ {l : List (List Char)}, l.Pairwise (fun a b => strLt a b = true) →
    (setInsert k l).Pairwise (fun a b => strLt a b = true) := by
  intro l
  induction l with
  | nil =>
    intro _
    simp [setInsert]
  | cons k2 rest ih =>
    intro hp
    rcases List.pairwise_cons.mp hp with ⟨hk2, hrest⟩
    simp only [setInsert]
    split_ifs with h1 h2
    · refine List.pairwise_cons.mpr ⟨?_, hp⟩
      intro x hx
      rcases List.mem_cons.mp hx with rfl | hx2
      · exact h1
      · exact strLt_trans h1 (hk2 x hx2)
    · refine List.pairwise_cons.mpr ⟨?_, ih hrest⟩
      intro x hx
      rcases mem_setInsert hx with rfl | hx2
      · exact h2
      · exact hk2 x hx2
    · exact hp

theorem mem_map_fst_mapInsert {x k : List Char} {v : Value} :
    ∀ {l : List (List Char × Value)}, x ∈ (mapInsert k v l).map Prod.fst →
    x = k ∨ x ∈ l.map Prod.fst := by
  intro l
  induction l with
  | nil =>
    intro h
    simp only [mapInsert, List.map_cons, List.map_nil, List.mem_singleton] at h
    exact Or.inl h
  | cons kv rest ih =>
    obtain ⟨k2, v2⟩ := kv
    intro h
    simp only [mapInsert] at h
    split_ifs at h with h1 h2
    · simp only [List.map_cons, List.mem_cons] at h ⊢
      exact h
    · simp only [List.map_cons, List.mem_cons] at h ⊢
      rcases h with rfl | h3
      · exact Or.inr (Or.inl rfl)
      · rcases ih h3 with rfl | h4
        · exact Or.inl rfl
        · exact Or.inr (Or.inr h4)
    · simp only [List.map_cons, List.mem_cons] at h ⊢
      rcases h with rfl | h3
      · exact Or.inl rfl
      · exact Or.inr (Or.inr h3)

theorem pairwise_mapInsert {k : List Char} {v : Value} :
    ∀ {l : List (List Char × Value)},
    (l.map Prod.fst).Pairwise (fun a b => strLt a b = true) →
    ((mapInsert k v l).map Prod.fst).Pairwise (fun a b => strLt a b = true) := by
  intro l
  induction l with
  | nil =>
    intro _
    simp [mapInsert]
  | cons kv rest ih =>
    obtain ⟨k2, v2⟩ := kv
    intro hp
    simp only [List.map_cons] at hp
    rcases List.pairwise_cons.mp hp with ⟨hk2, hrest⟩
    simp only [mapInsert]
    split_ifs with h1 h2
    · simp only [List.map_cons]
      refine List.pairwise_cons.mpr ⟨?_, hp⟩
      intro x hx
      rcases List.mem_cons.mp hx with rfl | hx2
      · exact h1
      · exact strLt_trans h1 (hk2 x hx2)
    · simp only [List.map_cons]
      refine List.pairwise_cons.mpr ⟨?_, ih hrest⟩
      intro x hx
      rcases mem_map_fst_mapInsert hx with rfl | hx2
      · exact h2
      · exact hk2 x hx2
    · simp only [List.map_cons]
      refine List.pairwise_cons.mpr ⟨?_, hrest⟩
      intro x hx
      have hkk2 : k = k2 := strLt_eq (by simpa using h1) (by simpa using h2)
      subst hkk2
      exact hk2 x hx

theorem setInsert_of_all_lt {k : List Char} :
    ∀ {l : List (List Char)}, (∀ x ∈ l, strLt x k = true) → setInsert k l = l ++ [k] := by
  intro l
  induction l with
  | nil =>
    intro _
    simp [setInsert]
  | cons k2 rest ih =>
    intro h
    have hk2 : strLt k2 k = true := h k2 (List.mem_cons_self _ _)
    simp only [setInsert]
    rw [if_neg (by simp [strLt_asymm hk2]), if_pos hk2, ih (fun x hx => h x (List.mem_cons_of_mem _ hx))]
    simp

theorem keys_fold :
    ∀ (f : List (List Char × Value)) (acc : List (List Char)),
    (f.map Prod.fst).Pairwise (fun a b => strLt a b = true) →
    (∀ x ∈ acc, ∀ y ∈ f.map Prod.fst, strLt x y = true) →
    f.foldl (fun a kv => setInsert kv.1 a) acc = acc ++ f.map Prod.fst := by
  intro f
  induction f with
  | nil =>
    intro acc _ _
    simp
  | cons kv rest ih =>
    intro acc hp hlt
    obtain ⟨k, v⟩ := kv
    simp only [List.map_cons] at hp hlt
    rcases List.pairwise_cons.mp hp with ⟨hk, hrest⟩
    simp only [List.foldl_cons]
    rw [show setInsert k acc = acc ++ [k] from
      setInsert_of_all_lt (fun x hx => hlt x hx k (List.mem_cons_self _ _))]
    rw [ih (acc ++ [k]) hrest ?_]
    · simp
    · intro x hx y hy
      rcases List.mem_append.mp hx with hx1 | hx2
      · exact hlt x hx1 y (List.mem_cons_of_mem _ hy)
      · have : x = k := by simpa using hx2
        subst this
        exact hk y hy

theorem keys_of_sorted {f : List (List Char × Value)}
    (hp : (f.map Prod.fst).Pairwise (fun a b => strLt a b = true)) :
    keys f = f.map Prod.fst := by
  have := keys_fold f [] hp (by simp)
  simpa [keys] using this

theorem pairwise_keys_fold :
    ∀ (f : List (List Char × Value)) (acc : List (List Char)),
    acc.Pairwise (fun a b => strLt a b = true) →
    (f.foldl (fun a kv => setInsert kv.1 a) acc).Pairwise (fun a b => strLt a b = true) := by
  intro f
  induction f with
  | nil =>
    intro acc h
    simpa using h
  | cons kv rest ih =>
    intro acc h
    simp only [List.foldl_cons]
    exact ih _ (pairwise_setInsert h)

theorem pairwise_keys (f : List (List Char × Value)) :
    (keys f).Pairwise (fun a b => strLt a b = true) :=
  pairwise_keys_fold f [] (by simp)

theorem pairwise_mapInsert_fold :
    ∀ (kvs : List (List Char × Value)) (m : List (List Char × Value)),
    (m.map Prod.fst).Pairwise (fun a b => strLt a b = true) →
    (((kvs.foldl (fun m kv => mapInsert kv.1 kv.2 m) m)).map Prod.fst).Pairwise
      (fun a b => strLt a b = true) := by
  intro kvs
  induction kvs with
  | nil =>
    intro m h
    simpa using h
  | cons kv rest ih =>
    intro m h
    simp only [List.foldl_cons]
    exact ih _ (pairwise_mapInsert h)

end Json

namespace Json

theorem dropSpaces_length : ∀ s : List Char, (dropSpaces s).length ≤ s.length := by
  intro s
  induction s with
  | nil => simp [dropSpaces]
  | cons c cs ih =>
    simp only [dropSpaces]
    split_ifs
    · exact ih.trans (by simp)
    · simp

theorem dropToNewline_length : ∀ s : List Char, (dropToNewline s).length ≤ s.length := by
  intro s
  induction s with
  | nil => simp [dropToNewline]
  | cons c cs ih =>
    simp only [dropToNewline]
    split_ifs
    · simp
    · exact ih.trans (by simp)

theorem chompSpace_true {s t : List Char} (h : chompSpace s = (true, t)) :
    t.length < s.length := by
  cases s with
  | nil => simp [chompSpace] at h
  | cons c cs =>
    simp only [chompSpace] at h
    split_ifs at h with hs
    · rcases h with ⟨-, rfl⟩
      exact Nat.lt_succ_of_le (dropSpaces_length cs)
    · simp at h

theorem chompComment_true {s t : List Char} (h : chompComment s = (true, t)) :
    t.length < s.length := by
  simp only [chompComment] at h
  split_ifs at h with hc
  · rcases h with ⟨-, rfl⟩
    cases s with
    | nil => simp [peek] at hc
    | cons c1 s1 =>
      cases s1 with
      | nil => simp [peek] at hc
      | cons c2 s2 =>
        simpa using Nat.lt_succ_of_le (Nat.le_succ_of_le (dropToNewline_length s2))
  · simp at h

theorem chompF_congr : ∀ (f : Nat) {s : List Char} {g : Nat},
    s.length < f → s.length < g → chompF f s = chompF g s := by
  intro f
  induction f with
  | zero =>
    intro s g hf _
    exact absurd hf (Nat.not_lt_zero _)
  | succ f ih =>
    intro s g hf hg
    obtain ⟨g2, rfl⟩ : ∃ g2, g = g2 + 1 := ⟨g - 1, by omega⟩
    rcases hsp : chompSpace s with ⟨b, s2⟩
    cases b with
    | true =>
      have hlen := chompSpace_true hsp
      rw [show chompF (f + 1) s = chompF f s2 from by simp [chompF, hsp],
        show chompF (g2 + 1) s = chompF g2 s2 from by simp [chompF, hsp]]
      exact ih (by omega) (by omega)
    | false =>
      rcases hcc : chompComment s with ⟨b2, s3⟩
      cases b2 with
      | true =>
        have hlen := chompComment_true hcc
        rw [show chompF (f + 1) s = chompF f s3 from by simp [chompF, hsp, hcc],
          show chompF (g2 + 1) s = chompF g2 s3 from by simp [chompF, hsp, hcc]]
        exact ih (by omega) (by omega)
      | false =>
        rw [show chompF (f + 1) s = s from by simp [chompF, hsp, hcc],
          show chompF (g2 + 1) s = s from by simp [chompF, hsp, hcc]]

theorem chomp_eq_chompF {s : List Char} {f : Nat} (h : s.length < f) :
    chomp s = chompF f s :=
  chompF_congr (s.length + 1) (Nat.lt_succ_self _) h

theorem chomp_cons_space {c : Char} {s : List Char} (h : isspace c = true) :
    chomp (c :: s) = chomp (dropSpaces s) := by
  have h1 : chomp (c :: s) = chompF (s.length + 1) (dropSpaces s) := by
    simp [chomp, chompF, chompSpace, h]
  rw [h1]
  exact (chomp_eq_chompF (Nat.lt_succ_of_le (dropSpaces_length s))).symm

theorem chomp_dropSpaces : ∀ s : List Char, chomp (dropSpaces s) = chomp s := by
  intro s
  cases s with
  | nil => rfl
  | cons c cs =>
    by_cases h : isspace c = true
    · rw [show dropSpaces (c :: cs) = dropSpaces cs from by simp [dropSpaces, h],
        chomp_cons_space h]
    · rw [show dropSpaces (c :: cs) = c :: cs from by simp [dropSpaces, h]]

theorem dropToNewline_append {c : List Char} (h : '\n' ∉ c) (s : List Char) :
    dropToNewline (c ++ '\n' :: s) = '\n' :: s := by
  induction c with
  | nil => simp [dropToNewline]
  | cons x xs ih =>
    have hx : ¬(x = '\n') := fun he => h (he ▸ List.mem_cons_self _ _)
    simp only [List.cons_append, dropToNewline]
    rw [if_neg hx]
    exact ih (fun hm => h (List.mem_cons_of_mem _ hm))

theorem chomp_comment {c : List Char} (s : List Char) (h : '\n' ∉ c) :
    chomp ('/' :: '/' :: (c ++ '\n' :: s)) = chomp s := by
  have key : chomp ('/' :: '/' :: (c ++ '\n' :: s)) =
      chompF ((c ++ '\n' :: s).length + 2) (dropToNewline (c ++ '\n' :: s)) := by
    simp [chomp, chompF, chompSpace, chompComment, isspace, peek]
  rw [key, dropToNewline_append h s]
  rw [← chomp_eq_chompF (by simp; omega)]
  rw [chomp_cons_space (by decide)]
  exact chomp_dropSpaces s

theorem dropSpaces_allspace {s : List Char} (h : ∀ x ∈ s, isspace x = true) :
    dropSpaces s = [] := by
  induction s with
  | nil => rfl
  | cons c cs ih =>
    simp only [dropSpaces]
    rw [if_pos (h c (List.mem_cons_self _ _))]
    exact ih (fun x hx => h x (List.mem_cons_of_mem _ hx))

theorem chomp_allspace {s : List Char} (h : ∀ x ∈ s, isspace x = true) :
    chomp s = [] := by
  cases s with
  | nil => rfl
  | cons c cs =>
    rw [chomp_cons_space (h c (List.mem_cons_self _ _)),
      dropSpaces_allspace (fun x hx => h x (List.mem_cons_of_mem _ hx))]
    rfl

theorem csLoop_plain : ∀ (cs : List Char) (prev : Char), cs ≠ [] → '"' ∉ cs →
    csLoop prev cs = (cs, []) := by
  intro cs
  induction cs with
  | nil =>
    intro prev h _
    exact absurd rfl h
  | cons c cs2 ih =>
    intro prev _ hq
    have hc : ¬(c = '"') := fun he => hq (he ▸ List.mem_cons_self _ _)
    simp only [csLoop]
    rw [if_neg (by simp [hc])]
    cases cs2 with
    | nil => rfl
    | cons d ds =>
      rw [ih c (by simp) (fun hm => hq (List.mem_cons_of_mem _ hm))]

theorem getType_ne_null : ∀ {e : Value}, ¬(e = Value.null) → ∃ t, getType e = some t := by
  intro e h
  cases e with
  | null => exact absurd rfl h
  | num v => exact ⟨Kind.T_NUMBER, rfl⟩
  | bool b => exact ⟨Kind.T_BOOLEAN, rfl⟩
  | str s => exact ⟨Kind.T_STRING, rfl⟩
  | arr es => exact ⟨Kind.T_ARRAY, rfl⟩
  | obj fs => exact ⟨Kind.T_OBJECT, rfl⟩

end Json

namespace Json

theorem atofQ_one : atofQ (1, 0) = 1 := by norm_num [atofQ]

theorem atofQ_two : atofQ (2, 0) = 2 := by norm_num [atofQ]

theorem atofQ_three : atofQ (3, 0) = 3 := by norm_num [atofQ]

/-- C1: the round trip fails on the code as built: the tree parsed from
the input true is a Boolean, its serialization is the text 1 (through
the formatBoolean precedence slip), and parsing that text yields a
Number, not an equal Boolean. -/
theorem c1_roundtrip_fails_on_boolean :
    read "true".data = Value.bool true ∧
    write (Value.bool true) = "1".data ∧
    read "1".data = Value.num 1 ∧
    ¬(Value.num 1 = Value.bool true) := by
  refine ⟨rfl, by decide, ?_, by simp⟩
  rw [show (1 : ℚ) = atofQ (1, 0) from atofQ_one.symm]
  rfl

/-- C2: serializing a Boolean does not emit the literals true and false:
the insertion binds before the conditional, so the stream prints the raw
bool as 1 or 0. -/
theorem c2_boolean_serializes_to_digit :
    write (Value.bool true) = "1".data ∧
    write (Value.bool false) = "0".data ∧
    ¬("1".data = "true".data) ∧
    ¬("0".data = "false".data) :=
  ⟨by decide, by decide, by decide, by decide⟩

/-- C3 counterexample: the object input with a trailing comma parses
successfully to a one field Object, not to the absent value the claim
predicts. -/
theorem c3_trailing_comma_parses_counterexample :
    read "\x7b\"a\": 1,\x7d".data = Value.obj [("a".data, Value.num 1)] ∧
    ¬(Value.obj [("a".data, Value.num 1)] = Value.null) := by
  refine ⟨?_, by simp⟩
  rw [show (1 : ℚ) = atofQ (1, 0) from atofQ_one.symm]
  rfl

/-- C3 amended: a trailing comma before the closing brace or bracket is
accepted: after consuming the comma the loop sees the closer and breaks,
so the input parses to the same tree as without the comma. -/
theorem c3_trailing_comma_accepted :
    read "\x7b\"a\": 1,\x7d".data = read "\x7b\"a\": 1\x7d".data ∧
    read "[1,2,3,]".data = read "[1,2,3]".data ∧
    read "[1,2,3]".data = Value.arr [Value.num 1, Value.num 2, Value.num 3] := by
  refine ⟨rfl, rfl, ?_⟩
  rw [show (1 : ℚ) = atofQ (1, 0) from atofQ_one.symm,
    show (2 : ℚ) = atofQ (2, 0) from atofQ_two.symm,
    show (3 : ℚ) = atofQ (3, 0) from atofQ_three.symm]
  rfl

/-- C4: a failed sub parse inside a container does not abort it: the
unrecognized literal nil yields NULL, the diagnostic is printed, and the
container parse stores the NULL child and returns successfully, so read
hands back a tree containing an absent child. -/
theorem c4_failed_subparse_stored_in_tree :
    read "\x7b\"a\": nil\x7d".data = Value.obj [("a".data, Value.null)] ∧
    readErr "\x7b\"a\": nil\x7d".data = [Diag.unrecognizedLiteral] ∧
    ¬(Value.obj [("a".data, Value.null)] = Value.null) ∧
    read "[nil]".data = Value.arr [Value.null] :=
  ⟨rfl, rfl, by simp, rfl⟩

/-- C5 counterexample: in the parsed tree of the literal case input the
field d holds the four characters x backslash quote y: the escaping
backslash is retained in the stored value, so the stored text is not the
three character x quote y the claim states. -/
theorem c5_backslash_retained_counterexample :
    read "\x7b\"a\": 1, \"b\": [1,2,3], \"c\": true, \"d\": \"x\\\"y\"\x7d".data =
      Value.obj [("a".data, Value.num 1),
        ("b".data, Value.arr [Value.num 1, Value.num 2, Value.num 3]),
        ("c".data, Value.bool true),
        ("d".data, Value.str "x\\\"y".data)] ∧
    objectGetTyped [("a".data, Value.num 1),
        ("b".data, Value.arr [Value.num 1, Value.num 2, Value.num 3]),
        ("c".data, Value.bool true),
        ("d".data, Value.str "x\\\"y".data)] "d".data Kind.T_STRING =
      some (Value.str "x\\\"y".data) ∧
    ¬("x\\\"y".data = "x\"y".data) := by
  refine ⟨?_, rfl, by decide⟩
  rw [show (1 : ℚ) = atofQ (1, 0) from atofQ_one.symm,
    show (2 : ℚ) = atofQ (2, 0) from atofQ_two.symm,
    show (3 : ℚ) = atofQ (3, 0) from atofQ_three.symm]
  rfl

/-- C5 amended: the literal case input parses to an Object with exactly
four keys, the field b is an Array of the three Numbers one two three,
and the field d is a String holding the four characters x backslash
quote y, the backslash retained. -/
theorem c5_literal_case_amended :
    read "\x7b\"a\": 1, \"b\": [1,2,3], \"c\": true, \"d\": \"x\\\"y\"\x7d".data =
      Value.obj [("a".data, Value.num 1),
        ("b".data, Value.arr [Value.num 1, Value.num 2, Value.num 3]),
        ("c".data, Value.bool true),
        ("d".data, Value.str "x\\\"y".data)] ∧
    (keys [("a".data, Value.num 1),
        ("b".data, Value.arr [Value.num 1, Value.num 2, Value.num 3]),
        ("c".data, Value.bool true),
        ("d".data, Value.str "x\\\"y".data)]).length = 4 ∧
    objectGetTyped [("a".data, Value.num 1),
        ("b".data, Value.arr [Value.num 1, Value.num 2, Value.num 3]),
        ("c".data, Value.bool true),
        ("d".data, Value.str "x\\\"y".data)] "b".data Kind.T_ARRAY =
      some (Value.arr [Value.num 1, Value.num 2, Value.num 3]) ∧
    objectGetTyped [("a".data, Value.num 1),
        ("b".data, Value.arr [Value.num 1, Value.num 2, Value.num 3]),
        ("c".data, Value.bool true),
        ("d".data, Value.str "x\\\"y".data)] "d".data Kind.T_STRING =
      some (Value.str ['x', '\\', '"', 'y']) := by
  refine ⟨?_, by decide, rfl, rfl⟩
  rw [show (1 : ℚ) = atofQ (1, 0) from atofQ_one.symm,
    show (2 : ℚ) = atofQ (2, 0) from atofQ_two.symm,
    show (3 : ℚ) = atofQ (3, 0) from atofQ_three.symm]
  rfl

/-- C6: every Object the code can build carries its fields sorted by
ascending lexicographic key order (the std::map insertion establishes
it, whatever the insertion order), the key set the serializer walks is
always sorted, and the tree parsed from the unsorted input serializes
with the keys reordered ascending, in the exact comma space and space
colon space layout. -/
theorem c6_object_keys_sorted :
    (∀ fields : List (List Char × Value),
      (keys fields).Pairwise (fun a b => strLt a b = true)) ∧
    (∀ kvs : List (List Char × Value),
      (((kvs.foldl (fun m kv => mapInsert kv.1 kv.2 m) [])).map Prod.fst).Pairwise
        (fun a b => strLt a b = true)) ∧
    read "\x7b\"z\":1,\"a\":2\x7d".data =
      Value.obj [("a".data, Value.num 2), ("z".data, Value.num 1)] ∧
    write (Value.obj [("a".data, Value.num 2), ("z".data, Value.num 1)]) =
      "\x7b\"a\" : 2, \"z\" : 1\x7d".data := by
  refine ⟨pairwise_keys, fun kvs => pairwise_mapInsert_fold kvs [] (by simp), ?_, by decide⟩
  rw [show (1 : ℚ) = atofQ (1, 0) from atofQ_one.symm,
    show (2 : ℚ) = atofQ (2, 0) from atofQ_two.symm]
  rfl

/-- C7: a line comment behaves like whitespace: wherever the parser
skips trivia, a comment of any body without a newline, closed by its
newline, chomps to the same cursor as without it, and the two concrete
inputs of the claim parse to the same tree. -/
theorem c7_comment_insertion_preserves_parse :
    (∀ (c s : List Char), '\n' ∉ c →
      chomp ('/' :: '/' :: (c ++ '\n' :: s)) = chomp s) ∧
    read "\x7b\"a\":1\x7d".data = read "\x7b // note\n \"a\" : 1 \x7d".data ∧
    read "\x7b\"a\":1\x7d".data = Value.obj [("a".data, Value.num 1)] := by
  refine ⟨fun c s h => chomp_comment s h, rfl, ?_⟩
  rw [show (1 : ℚ) = atofQ (1, 0) from atofQ_one.symm]
  rfl

/-- C7 witness: the comment absorption applied to a concrete comment
body and rest of input. -/
theorem c7_comment_insertion_preserves_parse_witness :
    chomp ('/' :: '/' :: (" note".data ++ '\n' :: " \"a\" : 1 \x7d".data)) =
      chomp " \"a\" : 1 \x7d".data :=
  c7_comment_insertion_preserves_parse.1 " note".data " \"a\" : 1 \x7d".data (by decide)

/-- C8 counterexample: parse can build an Array holding a NULL element,
and the typed accessor on that in range index dereferences the NULL
element instead of returning false: the model marks the undefined
behavior as none, which in particular is not the clean false return,
modelled some none, that the claim requires. -/
theorem c8_null_element_dereference_counterexample :
    read "[nil]".data = Value.arr [Value.null] ∧
    0 < [Value.null].length ∧
    arrayGetTyped [Value.null] 0 Kind.T_NUMBER = none ∧
    ¬(arrayGetTyped [Value.null] 0 Kind.T_NUMBER = some none) :=
  ⟨rfl, by decide, rfl,
   fun h => Option.noConfusion
     ((Eq.symm (rfl : arrayGetTyped [Value.null] 0 Kind.T_NUMBER = none)).trans h)⟩

/-- C8 amended: the typed accessors succeed exactly on a present non
null element of the requested kind and fail cleanly otherwise, except
that the Array accessor dereferences a NULL element (and an out of
range index) without a guard: the Object accessor returns the element
if and only if the lookup yields it with the requested kind and returns
false whenever the kind test fails (missing key or stored NULL
included), and the Array accessor on an in range non null element
returns it exactly on matching kind and false on a mismatch. -/
theorem c8_typed_get_contract :
    (∀ (fields : List (List Char × Value)) (key : List Char) (t : Kind) (e : Value),
      objectGetTyped fields key t = some e ↔
        (objectGet fields key = e ∧ getType e = some t)) ∧
    (∀ (fields : List (List Char × Value)) (key : List Char) (t : Kind),
      ¬(getType (objectGet fields key) = some t) → objectGetTyped fields key t = none) ∧
    (∀ (elems : List Value) (idx : Nat) (t : Kind) (e : Value),
      arrayGet elems idx = some e → getType e = some t →
      arrayGetTyped elems idx t = some (some e)) ∧
    (∀ (elems : List Value) (idx : Nat) (t : Kind) (e : Value),
      arrayGet elems idx = some e → ¬(e = Value.null) → ¬(getType e = some t) →
      arrayGetTyped elems idx t = some none) := by
  refine ⟨?_, ?_, ?_, ?_⟩
  · intro fields key t e
    unfold objectGetTyped
    by_cases h : getType (objectGet fields key) = some t
    · rw [if_pos h]
      constructor
      · intro he
        injection he with he
        exact ⟨he, he ▸ h⟩
      · intro ⟨h1, _⟩
        exact congrArg some h1
    · rw [if_neg h]
      constructor
      · intro he
        exact absurd he (by simp)
      · intro ⟨h1, h2⟩
        exact absurd (h1 ▸ h2) h
  · intro fields key t h
    unfold objectGetTyped
    rw [if_neg h]
  · intro elems idx t e h1 h2
    unfold arrayGetTyped
    rw [h1]
    show (match getType e with
      | none => none
      | some te => some (if te = t then some e else none)) = some (some e)
    rw [h2]
    simp
  · intro elems idx t e h1 h2 h3
    unfold arrayGetTyped
    rw [h1]
    obtain ⟨te, hte⟩ := getType_ne_null h2
    show (match getType e with
      | none => none
      | some te => some (if te = t then some e else none)) = some none
    rw [hte]
    have hne : ¬(te = t) := fun he => h3 (he ▸ hte)
    simp [hne]

/-- C8 witness: the contract applied at concrete inputs: a matching
Object lookup, a missing key, a matching Array element and a mismatched
Array element. -/
theorem c8_typed_get_contract_witness :
    objectGetTyped [("k".data, Value.num 1)] "k".data Kind.T_NUMBER = some (Value.num 1) ∧
    objectGetTyped [] "missing".data Kind.T_NUMBER = none ∧
    arrayGetTyped [Value.num 1] 0 Kind.T_NUMBER = some (some (Value.num 1)) ∧
    arrayGetTyped [Value.str "x".data] 0 Kind.T_NUMBER = some none :=
  ⟨(c8_typed_get_contract.1 [("k".data, Value.num 1)] "k".data Kind.T_NUMBER
      (Value.num 1)).mpr ⟨rfl, rfl⟩,
   c8_typed_get_contract.2.1 [] "missing".data Kind.T_NUMBER (by decide),
   c8_typed_get_contract.2.2.1 [Value.num 1] 0 Kind.T_NUMBER (Value.num 1) rfl rfl,
   c8_typed_get_contract.2.2.2 [Value.str "x".data] 0 Kind.T_NUMBER
     (Value.str "x".data) rfl (by simp) (by decide)⟩

/-- C9 counterexample: the input of an opening quote followed by abc and
no closing quote parses successfully to the String abc with no
diagnostic, not to the absent value with a diagnostic as the claim
predicts. -/
theorem c9_unterminated_string_counterexample :
    read "\"abc".data = Value.str "abc".data ∧
    readErr "\"abc".data = [] ∧
    ¬(Value.str "abc".data = Value.null) :=
  ⟨rfl, rfl, by simp⟩

/-- C9 amended: a string literal whose closing quote is missing does not
fail: the collecting loop stops at the terminator and the parser returns
a String holding every character after the opening quote, with no
diagnostic (stated for nonempty bodies free of quotes; the source walks
past the buffer when the input ends immediately after the quote). -/
theorem c9_unterminated_string_returns_content :
    ∀ cs : List Char, ¬(cs = []) → '"' ∉ cs →
      read ('"' :: cs) = Value.str cs ∧ readErr ('"' :: cs) = [] := by
  intro cs hne hq
  constructor
  · show Value.str (csLoop '"' cs).1 = Value.str cs
    rw [csLoop_plain cs '"' hne hq]
  · rfl

/-- C9 witness: the amended statement applied to the concrete
unterminated input of the counterexample. -/
theorem c9_unterminated_string_returns_content_witness :
    read ('"' :: "abc".data) = Value.str "abc".data ∧
    readErr ('"' :: "abc".data) = [] :=
  c9_unterminated_string_returns_content "abc".data (by decide) (by decide)

/-- C10: reading the empty input, or any input of whitespace only,
chomps to the terminator, falls into parseLiteral, prints the
unrecognized literal diagnostic and returns the absent value; the
cursor never moves past the terminator. -/
theorem c10_whitespace_only_input_fails :
    ∀ s : List Char, (∀ c ∈ s, isspace c = true) →
      read s = Value.null ∧ readErr s = [Diag.unrecognizedLiteral] := by
  intro s h
  have hc : chomp s = [] := chomp_allspace h
  constructor
  · show (parseGeneric (s.length + 1) s).1 = Value.null
    rw [show parseGeneric (s.length + 1) s = parseLiteral [] from by
      simp only [parseGeneric]
      rw [hc]]
    rfl
  · show (parseGeneric (s.length + 1) s).2.2 = [Diag.unrecognizedLiteral]
    rw [show parseGeneric (s.length + 1) s = parseLiteral [] from by
      simp only [parseGeneric]
      rw [hc]]
    rfl

/-- C10 witness: the statement applied to the empty input and to a
whitespace only input. -/
theorem c10_whitespace_only_input_fails_witness :
    (read "".data = Value.null ∧ readErr "".data = [Diag.unrecognizedLiteral]) ∧
    (read " \t ".data = Value.null ∧ readErr " \t ".data = [Diag.unrecognizedLiteral]) :=
  ⟨c10_whitespace_only_input_fails "".data (by decide),
   c10_whitespace_only_input_fails " \t ".data (by decide)⟩

end Json
